import Mathlib

/-!
  # Native value-custody program: processor embedding

  This file is a shallow embedding of `src/src/processor.rs`, a Solana-style
  program with two handlers over a custody account holding an 8-byte
  little-endian `u64` deposit counter:

  * `deposit`: lazily allocates the custody account (8 bytes, rent-funded,
    owned by the program), transfers `amount` lamports from the payer, and
    adds `amount` to the stored counter.
  * `withdraw`: checks ownership, computes `counter / 10`, fails with
    `InsufficientFunds` when that is zero, clamps to the custody account's
    lamport balance, moves the clamped amount to the recipient, and
    decrements the counter by the clamped amount.
  * `process_instruction`: borsh-decodes a tagged instruction (tag 0 with an
    8-byte little-endian `u64` payload for deposit, tag 1 alone for
    withdraw) and dispatches.

  Machine integers are `Nat` with explicit `% 2 ^ 64` where the Rust `u64`
  arithmetic can wrap (release-profile wrapping semantics); accounts are a
  record of owner, lamport balance and raw data bytes; fallible paths return
  `Except ProgramError`. The external system-program collaborators
  (`create_account`, `transfer`) are modelled from the spec's contract for
  them (§4.2): success moves lamports, failure is `AllocationError` /
  `TransferError` with no effect.
-/

/-- The `u64` modulus: Rust `u64` arithmetic in the processor is wrapping,
so every stored or transferred quantity is reduced `% U64MOD`. -/
def U64MOD : Nat := 18446744073709551616

/-- Size in bytes of the custody account's data region
(`DEPOSIT_ACCOUNT_SIZE` in the source). -/
def DEPOSIT_ACCOUNT_SIZE : Nat := 8

/-- Withdrawal divisor (`WITHDRAWAL_PERCENTAGE` in the source): a withdrawal
takes `counter / 10`. -/
def WITHDRAWAL_PERCENTAGE : Nat := 10

/-- Wrapping `u64` addition. -/
def wrapAdd (a b : Nat) : Nat := (a + b) % U64MOD

/-- Wrapping `u64` subtraction (callers keep `a, b < U64MOD`). -/
def wrapSub (a b : Nat) : Nat := (a + U64MOD - b) % U64MOD

/-- Little-endian byte-list decoding, as in `u64::from_le_bytes` applied to
the first 8 data bytes. -/
def leBytesToU64 (bs : List Nat) : Nat :=
  bs.foldr (fun b acc => b + 256 * acc) 0

/-- Little-endian encoding of the low 64 bits of `x`, as in
`u64::to_le_bytes`. -/
def u64ToLeBytes (x : Nat) : List Nat :=
  [x % 256, x / 256 % 256, x / 65536 % 256, x / 16777216 % 256,
   x / 4294967296 % 256, x / 1099511627776 % 256,
   x / 281474976710656 % 256, x / 72057594037927936 % 256]

/-- Overwrite the first 8 data bytes with the encoding of `x`, keeping any
tail, as in `data[..8].copy_from_slice(&x.to_le_bytes())`. -/
def writeU64Le (x : Nat) (data : List Nat) : List Nat :=
  u64ToLeBytes x ++ data.drop 8

/-- An account as the handlers see it: controlling program, lamport balance
(the held balance), and raw data bytes. -/
structure Account where
  owner : Nat
  lamports : Nat
  data : List Nat
  deriving DecidableEq, Repr

/-- The counter stored in an account: the first 8 data bytes decoded
little-endian. -/
def counterOf (a : Account) : Nat := leBytesToU64 (a.data.take 8)

/-- Error taxonomy of the processor. `IncorrectProgramId` is the spec's
OwnershipError, `BorshIoError` its DecodeError, `Panic` the abort from
`try_into().unwrap()` on a data region shorter than 8 bytes. -/
inductive ProgramError where
  | IncorrectProgramId
  | InsufficientFunds
  | BorshIoError
  | AllocationError
  | TransferError
  | NotEnoughAccountKeys
  | Panic
  deriving DecidableEq, Repr

/-- Modelled from the spec: the Allocation Service collaborator
(`system_instruction::create_account`, external to this repository). On
success it debits the payer by the rent deposit and produces the target
account with 8 zero bytes of data, the rent lamports, and the requested
owner; on failure (insufficient payer funds) nothing changes. -/
def createAccount (payer target : Account) (rentLamports newOwner : Nat) :
    Except ProgramError (Account × Account) :=
  if payer.lamports < rentLamports then .error .AllocationError
  else .ok ({ payer with lamports := payer.lamports - rentLamports },
            { owner := newOwner,
              lamports := wrapAdd target.lamports rentLamports,
              data := List.replicate DEPOSIT_ACCOUNT_SIZE 0 })

/-- Modelled from the spec: the Transfer Service collaborator
(`system_instruction::transfer`, external to this repository). On success it
moves `amount` lamports from `src` to `dst`; on failure (insufficient `src`
funds) nothing changes. -/
def transferLamports (src dst : Account) (amount : Nat) :
    Except ProgramError (Account × Account) :=
  if src.lamports < amount then .error .TransferError
  else .ok ({ src with lamports := src.lamports - amount },
            { dst with lamports := wrapAdd dst.lamports amount })

/-- The `deposit` handler of `processor.rs`: if the custody account's data
region is empty, allocate it (8 bytes, rent-funded, owned by the program);
then transfer `amount` from the payer and add `amount` (wrapping) to the
stored counter. -/
def deposit (programId rentMinimum : Nat) (payer depositAccount : Account)
    (amount : Nat) : Except ProgramError (Account × Account) :=
  match (if depositAccount.data.isEmpty then
           createAccount payer depositAccount rentMinimum programId
         else .ok (payer, depositAccount)) with
  | .error e => .error e
  | .ok (payer1, depositAccount1) =>
    match transferLamports payer1 depositAccount1 amount with
    | .error e => .error e
    | .ok (payer2, depositAccount2) =>
      if depositAccount2.data.length < 8 then .error .Panic
      else
        let totalDeposited := leBytesToU64 (depositAccount2.data.take 8)
        .ok (payer2,
             { depositAccount2 with
                 data := writeU64Le (wrapAdd totalDeposited amount)
                           depositAccount2.data })

/-- The `withdraw` handler of `processor.rs`: require program ownership,
read the counter, fail with `InsufficientFunds` when `counter / 10 = 0`,
clamp the withdrawal to the custody account's lamports, move it to the
recipient, and decrement the counter by the clamped amount. -/
def withdraw (programId : Nat) (depositAccount recipient : Account) :
    Except ProgramError (Account × Account) :=
  if depositAccount.owner ≠ programId then .error .IncorrectProgramId
  else if depositAccount.data.length < 8 then .error .Panic
  else
    let totalDeposited := leBytesToU64 (depositAccount.data.take 8)
    let withdrawalAmount := totalDeposited / WITHDRAWAL_PERCENTAGE
    if withdrawalAmount = 0 then .error .InsufficientFunds
    else
      let clamped := min withdrawalAmount depositAccount.lamports
      .ok ({ depositAccount with
               lamports := wrapSub depositAccount.lamports clamped,
               data := writeU64Le (wrapSub totalDeposited clamped)
                         depositAccount.data },
           { recipient with lamports := wrapAdd recipient.lamports clamped })

/-- The borsh-encoded instruction of `processor.rs`. -/
inductive TransferInstruction where
  | DepositInstruction (amount : Nat)
  | WithdrawalInstruction
  deriving DecidableEq, Repr

/-- Borsh `try_from_slice` for `TransferInstruction`: a one-byte tag, tag 0
followed by exactly an 8-byte little-endian `u64`, tag 1 followed by
nothing; any other input (wrong tag, wrong payload length, trailing bytes)
is a deserialization error. -/
def tryFromSlice (input : List Nat) : Except ProgramError TransferInstruction :=
  match input with
  | 0 :: rest =>
      if rest.length = 8 then .ok (.DepositInstruction (leBytesToU64 rest))
      else .error .BorshIoError
  | [1] => .ok .WithdrawalInstruction
  | _ => .error .BorshIoError

/-- Characterization of the inputs `tryFromSlice` accepts. -/
def wellFormedInput (input : List Nat) : Bool :=
  match input with
  | 0 :: rest => rest.length == 8
  | [1] => true
  | _ => false

/-- The `process_instruction` entrypoint of `processor.rs`: decode, then
dispatch to `deposit` (accounts `[payer, depositAccount, systemProgram]`)
or `withdraw` (accounts `[depositAccount, recipient]`). -/
def process_instruction (programId rentMinimum : Nat) (accounts : List Account)
    (input : List Nat) : Except ProgramError (List Account) :=
  match tryFromSlice input with
  | .error e => .error e
  | .ok (.DepositInstruction amount) =>
      match accounts with
      | payer :: depositAccount :: _systemProgram :: _ =>
          match deposit programId rentMinimum payer depositAccount amount with
          | .ok (p, d) => .ok [p, d]
          | .error e => .error e
      | _ => .error .NotEnoughAccountKeys
  | .ok .WithdrawalInstruction =>
      match accounts with
      | depositAccount :: recipient :: _ =>
          match withdraw programId depositAccount recipient with
          | .ok (d, r) => .ok [d, r]
          | .error e => .error e
      | _ => .error .NotEnoughAccountKeys

/-! ## Codec lemmas -/

/-- Little-endian encode/decode round-trips through the low 64 bits. -/
theorem leBytesToU64_u64ToLeBytes (x : Nat) :
    leBytesToU64 (u64ToLeBytes x) = x % U64MOD := by
  simp only [leBytesToU64, u64ToLeBytes, List.foldr, U64MOD]
  omega

/-- Round-trip for in-range values. -/
theorem leBytesToU64_u64ToLeBytes_of_lt (x : Nat) (hx : x < U64MOD) :
    leBytesToU64 (u64ToLeBytes x) = x := by
  rw [leBytesToU64_u64ToLeBytes, Nat.mod_eq_of_lt hx]

/-- An encoded `u64` is exactly 8 bytes. -/
theorem u64ToLeBytes_length (x : Nat) : (u64ToLeBytes x).length = 8 := rfl

/-- Overwriting the counter bytes leaves the fresh encoding as the 8-byte
prefix. -/
theorem take_writeU64Le (x : Nat) (data : List Nat) :
    (writeU64Le x data).take 8 = u64ToLeBytes x := by
  rw [writeU64Le]
  rw [show (8 : Nat) = (u64ToLeBytes x).length from rfl]
  exact List.take_left _ _

/-- An account whose 8-byte prefix is an encoded counter has at least
8 data bytes. -/
theorem length_ge_of_take_eq (data : List Nat) (c : Nat)
    (h : data.take 8 = u64ToLeBytes c) : ¬ data.length < 8 := by
  have hlen := congrArg List.length h
  rw [List.length_take, u64ToLeBytes_length] at hlen
  omega

/-- Wrapping subtraction agrees with truncated subtraction when no borrow
occurs. -/
theorem wrapSub_eq_sub (a b : Nat) (hb : b ≤ a) (ha : a < U64MOD) :
    wrapSub a b = a - b := by
  rw [wrapSub, U64MOD] at *
  omega

/-- Wrapping addition agrees with addition below the modulus. -/
theorem wrapAdd_eq_add (a b : Nat) (h : a + b < U64MOD) :
    wrapAdd a b = a + b := by
  rw [wrapAdd, Nat.mod_eq_of_lt h]

/-! ## Handler behavior lemmas -/

/-- Full behavior of `withdraw` on a program-owned account storing counter
`c` with a nonzero computed withdrawal: the clamped amount
`min (c / 10) lamports` leaves the custody account, reaches the recipient,
and is subtracted from the counter. -/
theorem withdraw_eq (pid : Nat) (custody recipient : Account) (c : Nat)
    (hown : custody.owner = pid)
    (hdata : custody.data.take 8 = u64ToLeBytes c)
    (hc : c < U64MOD)
    (hpos : c / 10 ≠ 0)
    (hlam : custody.lamports < U64MOD) :
    withdraw pid custody recipient =
      .ok ({ custody with
               lamports := custody.lamports - min (c / 10) custody.lamports,
               data := writeU64Le (c - min (c / 10) custody.lamports)
                         custody.data },
           { recipient with
               lamports := (recipient.lamports
                              + min (c / 10) custody.lamports) % U64MOD }) := by
  have hlen := length_ge_of_take_eq custody.data c hdata
  have hcounter : leBytesToU64 (custody.data.take 8) = c := by
    rw [hdata, leBytesToU64_u64ToLeBytes_of_lt c hc]
  have hmin_le_lam : min (c / 10) custody.lamports ≤ custody.lamports :=
    Nat.min_le_right _ _
  have hmin_le_c : min (c / 10) custody.lamports ≤ c :=
    le_trans (Nat.min_le_left _ _) (Nat.div_le_self c 10)
  rw [withdraw]
  simp only [hown, ne_eq, not_true_eq_false, if_false, hlen, hcounter,
    WITHDRAWAL_PERCENTAGE, hpos, ite_false]
  rw [wrapSub_eq_sub _ _ hmin_le_lam hlam, wrapSub_eq_sub _ _ hmin_le_c hc,
    wrapAdd]

/-- Behavior of `deposit` on an uninitialized (empty-data) custody account
with a sufficiently funded payer: allocation then transfer then counter
write. -/
theorem deposit_fresh_eq (pid rentMin : Nat) (payer acct : Account) (A : Nat)
    (hdata : acct.data = [])
    (hfund : rentMin + A ≤ payer.lamports) :
    deposit pid rentMin payer acct A =
      .ok ({ payer with lamports := payer.lamports - rentMin - A },
           { owner := pid,
             lamports := wrapAdd (wrapAdd acct.lamports rentMin) A,
             data := writeU64Le (A % U64MOD) (List.replicate 8 0) }) := by
  have h1 : ¬ payer.lamports < rentMin := by omega
  have h2 : ¬ payer.lamports - rentMin < A := by omega
  rw [deposit]
  simp only [hdata, List.isEmpty_nil, if_true, createAccount, h1, if_false,
    transferLamports, h2, DEPOSIT_ACCOUNT_SIZE]
  norm_num [leBytesToU64, wrapAdd]
  have h0 : List.foldr (fun b acc => b + 256 * acc) 0 (List.replicate 8 0) = 0 := by
    decide
  rw [h0]
  norm_num

/-- Behavior of `deposit` on an already-initialized custody account storing
counter `c`, with a payer able to fund the transfer: no allocation, one
transfer, counter becomes `(c + A) % 2 ^ 64`. -/
theorem deposit_initialized_eq (pid rentMin : Nat) (payer acct : Account)
    (A c : Nat)
    (hdata : acct.data.take 8 = u64ToLeBytes c)
    (hc : c < U64MOD)
    (hfund : A ≤ payer.lamports) :
    deposit pid rentMin payer acct A =
      .ok ({ payer with lamports := payer.lamports - A },
           { acct with
               lamports := wrapAdd acct.lamports A,
               data := writeU64Le ((c + A) % U64MOD) acct.data }) := by
  have hlen := length_ge_of_take_eq acct.data c hdata
  have hne : acct.data.isEmpty = false := by
    cases h : acct.data with
    | nil => rw [h] at hlen; simp at hlen
    | cons b bs => simp
  have h2 : ¬ payer.lamports < A := by omega
  have hcounter : leBytesToU64 (acct.data.take 8) = c := by
    rw [hdata, leBytesToU64_u64ToLeBytes_of_lt c hc]
  rw [deposit]
  simp only [hne, Bool.false_eq_true, if_false, transferLamports, h2,
    hcounter, hlen, wrapAdd]

/-! ## Claim theorems -/

/-- C1: on a program-owned custody account with counter `c`, `c / 10 ≥ 1`
and held balance below `c / 10`, withdrawal transfers exactly the clamped
amount `held_balance` to the recipient (draining the custody balance) and
decrements the counter by exactly that transferred amount, never by the
pre-clamp value `c / 10`. -/
theorem withdraw_clamped_decrement (pid : Nat) (custody recipient : Account)
    (c : Nat)
    (hown : custody.owner = pid)
    (hdata : custody.data.take 8 = u64ToLeBytes c)
    (hc : c < U64MOD)
    (hpos : 1 ≤ c / 10)
    (hclamp : custody.lamports < c / 10)
    (hrec : recipient.lamports + custody.lamports < U64MOD) :
    ∃ custody1 recipient1,
      withdraw pid custody recipient = .ok (custody1, recipient1) ∧
      custody1.lamports = 0 ∧
      recipient1.lamports = recipient.lamports + custody.lamports ∧
      counterOf custody1 = c - custody.lamports ∧
      counterOf custody1 ≠ c - c / 10 := by
  have hdiv : c / 10 ≤ c := Nat.div_le_self c 10
  have hmin : min (c / 10) custody.lamports = custody.lamports :=
    Nat.min_eq_right (le_of_lt hclamp)
  have hlam : custody.lamports < U64MOD :=
    lt_trans hclamp (lt_of_le_of_lt hdiv hc)
  have h := withdraw_eq pid custody recipient c hown hdata hc (by omega) hlam
  rw [hmin] at h
  have hc' : c < 18446744073709551616 := hc
  refine ⟨_, _, h, Nat.sub_self _, Nat.mod_eq_of_lt hrec, ?_, ?_⟩
  · simp only [counterOf, take_writeU64Le, leBytesToU64_u64ToLeBytes, U64MOD]
    omega
  · simp only [counterOf, take_writeU64Le, leBytesToU64_u64ToLeBytes, U64MOD]
    omega

/-- C1 witness: counter 100, held balance 3 < 10; the transfer is 3 and the
counter drops to 97, not 90. -/
theorem withdraw_clamped_decrement_witness :
    ∃ custody1 recipient1,
      withdraw 1 ⟨1, 3, u64ToLeBytes 100⟩ ⟨2, 5, []⟩ = .ok (custody1, recipient1) ∧
      custody1.lamports = 0 ∧
      recipient1.lamports = 5 + 3 ∧
      counterOf custody1 = 100 - 3 ∧
      counterOf custody1 ≠ 100 - 100 / 10 :=
  withdraw_clamped_decrement 1 ⟨1, 3, u64ToLeBytes 100⟩ ⟨2, 5, []⟩ 100
    rfl rfl (by decide) (by decide) (by decide) (by decide)

/-- C2: on a program-owned custody account with counter `c`, `c / 10 ≥ 1`
and held balance at least `c / 10`, withdrawal succeeds, moves exactly
`c / 10` from the custody account to the recipient, and sets the counter to
`c - c / 10`. -/
theorem withdraw_success (pid : Nat) (custody recipient : Account) (c : Nat)
    (hown : custody.owner = pid)
    (hdata : custody.data.take 8 = u64ToLeBytes c)
    (hc : c < U64MOD)
    (hpos : 1 ≤ c / 10)
    (hheld : c / 10 ≤ custody.lamports)
    (hlam : custody.lamports < U64MOD)
    (hrec : recipient.lamports + c / 10 < U64MOD) :
    ∃ custody1 recipient1,
      withdraw pid custody recipient = .ok (custody1, recipient1) ∧
      custody1.lamports = custody.lamports - c / 10 ∧
      recipient1.lamports = recipient.lamports + c / 10 ∧
      counterOf custody1 = c - c / 10 := by
  have hmin : min (c / 10) custody.lamports = c / 10 := Nat.min_eq_left hheld
  have h := withdraw_eq pid custody recipient c hown hdata hc (by omega) hlam
  rw [hmin] at h
  have hc' : c < 18446744073709551616 := hc
  refine ⟨_, _, h, rfl, Nat.mod_eq_of_lt hrec, ?_⟩
  simp only [counterOf, take_writeU64Le, leBytesToU64_u64ToLeBytes, U64MOD]
  omega

/-- C2 witness: counter 100 and ample balance transfer 10 and leave the
counter at 90, the custody balance down by 10, the recipient balance up
by 10. -/
theorem withdraw_success_witness :
    ∃ custody1 recipient1,
      withdraw 1 ⟨1, 1000, u64ToLeBytes 100⟩ ⟨2, 5, []⟩ = .ok (custody1, recipient1) ∧
      custody1.lamports = 1000 - 100 / 10 ∧
      recipient1.lamports = 5 + 100 / 10 ∧
      counterOf custody1 = 100 - 100 / 10 :=
  withdraw_success 1 ⟨1, 1000, u64ToLeBytes 100⟩ ⟨2, 5, []⟩ 100
    rfl rfl (by decide) (by decide) (by decide) (by decide) (by decide)

/-- C3: on a program-owned custody account with counter in `[1, 9]` the
computed withdrawal `c / 10` is zero, so the handler fails with
`InsufficientFunds` and, returning an error, produces no mutated state. -/
theorem withdraw_small_counter_fails (pid : Nat) (custody recipient : Account)
    (c : Nat)
    (hown : custody.owner = pid)
    (hdata : custody.data.take 8 = u64ToLeBytes c)
    (h1 : 1 ≤ c) (h9 : c ≤ 9) :
    withdraw pid custody recipient = .error .InsufficientFunds := by
  have hlen := length_ge_of_take_eq custody.data c hdata
  have hcounter : leBytesToU64 (custody.data.take 8) = c := by
    rw [hdata, leBytesToU64_u64ToLeBytes_of_lt c (by rw [U64MOD]; omega)]
  have hdiv : c / 10 = 0 := by omega
  rw [withdraw]
  simp only [hown, ne_eq, not_true_eq_false, if_false, hlen, hcounter,
    WITHDRAWAL_PERCENTAGE, hdiv, if_true]

/-- C3 witness: counter 9 on an owned account fails with
`InsufficientFunds`. -/
theorem withdraw_small_counter_fails_witness :
    withdraw 1 ⟨1, 50, u64ToLeBytes 9⟩ ⟨2, 5, []⟩ = .error .InsufficientFunds :=
  withdraw_small_counter_fails 1 ⟨1, 50, u64ToLeBytes 9⟩ ⟨2, 5, []⟩ 9
    rfl rfl (by decide) (by decide)

/-- C4: withdrawal on a custody account not owned by the program fails with
`IncorrectProgramId` (the spec's OwnershipError) for every balance and every
data region — the data is never consulted — and, returning an error,
produces no mutated state. -/
theorem withdraw_wrong_owner (pid : Nat) (custody recipient : Account)
    (hown : custody.owner ≠ pid) :
    withdraw pid custody recipient = .error .IncorrectProgramId := by
  rw [withdraw]
  simp only [hown, ne_eq, not_false_eq_true, if_true]

/-- C4 witness: an account owned by program 7 rejects withdrawal under
program 1 even with a funded balance and a well-formed counter. -/
theorem withdraw_wrong_owner_witness :
    withdraw 1 ⟨7, 50, u64ToLeBytes 100⟩ ⟨2, 5, []⟩ = .error .IncorrectProgramId :=
  withdraw_wrong_owner 1 ⟨7, 50, u64ToLeBytes 100⟩ ⟨2, 5, []⟩ (by decide)

/-- C5: depositing `A` into an uninitialized custody account (empty data,
zero balance), with the payer able to fund rent and transfer, allocates the
account to the program and leaves counter `A` and held balance
`rentMin + A`. -/
theorem deposit_fresh_initializes (pid rentMin : Nat) (payer acct : Account)
    (A : Nat)
    (hdata : acct.data = [])
    (hlam0 : acct.lamports = 0)
    (hfund : rentMin + A ≤ payer.lamports)
    (hp : payer.lamports < U64MOD) :
    ∃ payer1 acct1,
      deposit pid rentMin payer acct A = .ok (payer1, acct1) ∧
      counterOf acct1 = A ∧
      acct1.lamports = rentMin + A ∧
      acct1.owner = pid := by
  have hp' : payer.lamports < 18446744073709551616 := hp
  have h := deposit_fresh_eq pid rentMin payer acct A hdata hfund
  refine ⟨_, _, h, ?_, ?_, rfl⟩
  · simp only [counterOf, take_writeU64Le, leBytesToU64_u64ToLeBytes, U64MOD]
    omega
  · show wrapAdd (wrapAdd acct.lamports rentMin) A = rentMin + A
    rw [hlam0]
    simp only [wrapAdd, U64MOD, Nat.zero_add]
    omega

/-- C5 witness: rent minimum 5 and amount 7 on a fresh account yield
counter 7 and held balance 12. -/
theorem deposit_fresh_initializes_witness :
    ∃ payer1 acct1,
      deposit 1 5 ⟨0, 100, []⟩ ⟨0, 0, []⟩ 7 = .ok (payer1, acct1) ∧
      counterOf acct1 = 7 ∧
      acct1.lamports = 5 + 7 ∧
      acct1.owner = 1 :=
  deposit_fresh_initializes 1 5 ⟨0, 100, []⟩ ⟨0, 0, []⟩ 7
    rfl rfl (by decide) (by decide)

/-- C6 counterexample: two successful deposits of `u64::MAX` and `1` into
the same custody account starting fresh (rent minimum 0) leave counter 0,
not `u64::MAX + 1 = 2 ^ 64`: the update wraps. -/
theorem deposit_sequential_counterexample :
    deposit 42 0 ⟨7, 18446744073709551615, []⟩ ⟨0, 0, []⟩ 18446744073709551615 =
      .ok (⟨7, 0, []⟩,
           ⟨42, 18446744073709551615, u64ToLeBytes 18446744073709551615⟩) ∧
    deposit 42 0 ⟨8, 1, []⟩
      ⟨42, 18446744073709551615, u64ToLeBytes 18446744073709551615⟩ 1 =
      .ok (⟨8, 0, []⟩, ⟨42, 0, u64ToLeBytes 0⟩) ∧
    counterOf ⟨42, 0, u64ToLeBytes 0⟩ = 0 ∧
    (0 : Nat) ≠ 18446744073709551615 + 1 := by
  refine ⟨rfl, rfl, rfl, by decide⟩

/-- C6 amended: two successful deposits of `A1` then `A2` into the same
custody account starting fresh yield counter `(A1 + A2) % 2 ^ 64`, which is
`A1 + A2` whenever that sum stays below `2 ^ 64`. -/
theorem deposit_sequential_mod (pid rentMin : Nat) (payer1 payer2 acct : Account)
    (A1 A2 : Nat)
    (hdata : acct.data = [])
    (hfund1 : rentMin + A1 ≤ payer1.lamports)
    (hfund2 : A2 ≤ payer2.lamports) :
    ∃ p1 d1 p2 d2,
      deposit pid rentMin payer1 acct A1 = .ok (p1, d1) ∧
      deposit pid rentMin payer2 d1 A2 = .ok (p2, d2) ∧
      counterOf d2 = (A1 + A2) % U64MOD := by
  have h1 := deposit_fresh_eq pid rentMin payer1 acct A1 hdata hfund1
  have hd1 : ({ owner := pid,
                lamports := wrapAdd (wrapAdd acct.lamports rentMin) A1,
                data := writeU64Le (A1 % U64MOD) (List.replicate 8 0) } :
                Account).data.take 8 = u64ToLeBytes (A1 % U64MOD) :=
    take_writeU64Le _ _
  have hmod : A1 % U64MOD < U64MOD := Nat.mod_lt _ (by rw [U64MOD]; omega)
  have h2 := deposit_initialized_eq pid rentMin payer2 _ A2 (A1 % U64MOD)
    hd1 hmod hfund2
  refine ⟨_, _, _, _, h1, h2, ?_⟩
  simp only [counterOf, take_writeU64Le, leBytesToU64_u64ToLeBytes, U64MOD]
  omega

/-- C6 amended witness: deposits of 3 then 4 (rent minimum 2) leave
counter `(3 + 4) % 2 ^ 64 = 7`. -/
theorem deposit_sequential_mod_witness :
    ∃ p1 d1 p2 d2,
      deposit 1 2 ⟨0, 10, []⟩ ⟨0, 0, []⟩ 3 = .ok (p1, d1) ∧
      deposit 1 2 ⟨0, 5, []⟩ d1 4 = .ok (p2, d2) ∧
      counterOf d2 = (3 + 4) % U64MOD :=
  deposit_sequential_mod 1 2 ⟨0, 10, []⟩ ⟨0, 5, []⟩ ⟨0, 0, []⟩ 3 4
    rfl (by decide) (by decide)

/-- C10: depositing `A` onto an initialized custody account storing counter
`c` (transfer collaborator succeeding) stores `(c + A) % 2 ^ 64`: the
unchecked `u64` addition silently wraps past `u64::MAX` instead of
failing. -/
theorem deposit_counter_wraps (pid rentMin : Nat) (payer acct : Account)
    (A c : Nat)
    (hdata : acct.data.take 8 = u64ToLeBytes c)
    (hc : c < U64MOD)
    (hfund : A ≤ payer.lamports) :
    ∃ payer1 acct1,
      deposit pid rentMin payer acct A = .ok (payer1, acct1) ∧
      counterOf acct1 = (c + A) % U64MOD := by
  have h := deposit_initialized_eq pid rentMin payer acct A c hdata hc hfund
  refine ⟨_, _, h, ?_⟩
  simp only [counterOf, take_writeU64Le, leBytesToU64_u64ToLeBytes, U64MOD]
  omega

/-- C10 witness: counter `u64::MAX` plus deposit 2 wraps the stored counter
to 1. -/
theorem deposit_counter_wraps_witness :
    ∃ payer1 acct1,
      deposit 1 5 ⟨0, 2, []⟩ ⟨1, 9, u64ToLeBytes 18446744073709551615⟩ 2 =
        .ok (payer1, acct1) ∧
      counterOf acct1 = 1 :=
  deposit_counter_wraps 1 5 ⟨0, 2, []⟩ ⟨1, 9, u64ToLeBytes 18446744073709551615⟩
    2 18446744073709551615 (by decide) (by decide) (by decide)

/-- C8: the `InsufficientFunds` test looks only at the pre-clamp value
`c / 10`: with counter at least 10 and held balance 0, withdrawal succeeds
and changes nothing (zero is transferred, the counter stays); and on an
owned well-formed account `InsufficientFunds` is raised exactly when
`c / 10 = 0`. -/
theorem withdraw_insufficient_iff (pid : Nat) (custody recipient : Account)
    (c : Nat)
    (hown : custody.owner = pid)
    (hdata : custody.data.take 8 = u64ToLeBytes c)
    (hc : c < U64MOD)
    (hlam : custody.lamports < U64MOD)
    (hrec : recipient.lamports < U64MOD) :
    (10 ≤ c → custody.lamports = 0 →
      withdraw pid custody recipient = .ok (custody, recipient)) ∧
    (withdraw pid custody recipient = .error .InsufficientFunds ↔ c / 10 = 0) := by
  constructor
  · intro h10 hl0
    have h := withdraw_eq pid custody recipient c hown hdata hc (by omega) hlam
    rw [hl0] at h
    simp only [Nat.min_zero, Nat.sub_zero, Nat.add_zero] at h
    rw [writeU64Le] at h
    rw [← hdata, List.take_append_drop, Nat.mod_eq_of_lt hrec, ← hl0] at h
    exact h
  · constructor
    · intro herr
      by_contra hne
      have h := withdraw_eq pid custody recipient c hown hdata hc hne hlam
      rw [h] at herr
      simp at herr
    · intro h0
      have hlen := length_ge_of_take_eq custody.data c hdata
      have hcounter : leBytesToU64 (custody.data.take 8) = c := by
        rw [hdata, leBytesToU64_u64ToLeBytes_of_lt c hc]
      rw [withdraw]
      simp only [hown, ne_eq, not_true_eq_false, if_false, hlen, hcounter,
        WITHDRAWAL_PERCENTAGE, h0, if_true]

/-- C8 witness: counter 20 with zero held balance withdraws successfully
without any change, and does not raise `InsufficientFunds`. -/
theorem withdraw_insufficient_iff_witness :
    withdraw 1 ⟨1, 0, u64ToLeBytes 20⟩ ⟨2, 5, []⟩ =
      .ok (⟨1, 0, u64ToLeBytes 20⟩, ⟨2, 5, []⟩) ∧
    ¬ withdraw 1 ⟨1, 0, u64ToLeBytes 20⟩ ⟨2, 5, []⟩ = .error .InsufficientFunds := by
  have h := withdraw_insufficient_iff 1 ⟨1, 0, u64ToLeBytes 20⟩ ⟨2, 5, []⟩ 20
    rfl rfl (by decide) (by decide) (by decide)
  exact ⟨h.1 (by decide) rfl, fun he => absurd (h.2.mp he) (by decide)⟩

/-- C9: in every withdrawal that reaches the counter update, the subtracted
amount `min (c / 10) held` is at most `c`, the `u64` decrement does not
wrap (wrapping subtraction equals truncated subtraction), and the new
counter is at most the old one. -/
theorem withdraw_counter_no_underflow (pid : Nat) (custody recipient : Account)
    (c : Nat)
    (hown : custody.owner = pid)
    (hdata : custody.data.take 8 = u64ToLeBytes c)
    (hc : c < U64MOD)
    (hpos : c / 10 ≠ 0)
    (hlam : custody.lamports < U64MOD) :
    min (c / 10) custody.lamports ≤ c ∧
    wrapSub c (min (c / 10) custody.lamports) =
      c - min (c / 10) custody.lamports ∧
    ∃ custody1 recipient1,
      withdraw pid custody recipient = .ok (custody1, recipient1) ∧
      counterOf custody1 = c - min (c / 10) custody.lamports ∧
      counterOf custody1 ≤ c := by
  have hc' : c < 18446744073709551616 := hc
  have hmin_le_c : min (c / 10) custody.lamports ≤ c :=
    le_trans (Nat.min_le_left _ _) (Nat.div_le_self c 10)
  have h := withdraw_eq pid custody recipient c hown hdata hc hpos hlam
  refine ⟨hmin_le_c, wrapSub_eq_sub _ _ hmin_le_c hc, _, _, h, ?_, ?_⟩
  · simp only [counterOf, take_writeU64Le, leBytesToU64_u64ToLeBytes, U64MOD]
    omega
  · simp only [counterOf, take_writeU64Le, leBytesToU64_u64ToLeBytes, U64MOD]
    omega

/-- C9 witness: counter 100 against held balance 3 subtracts 3 ≤ 100 with
no wrap, leaving counter 97 ≤ 100. -/
theorem withdraw_counter_no_underflow_witness :
    min (100 / 10) 3 ≤ 100 ∧
    wrapSub 100 (min (100 / 10) 3) = 100 - min (100 / 10) 3 ∧
    ∃ custody1 recipient1,
      withdraw 1 ⟨1, 3, u64ToLeBytes 100⟩ ⟨2, 5, []⟩ = .ok (custody1, recipient1) ∧
      counterOf custody1 = 100 - min (100 / 10) 3 ∧
      counterOf custody1 ≤ 100 :=
  withdraw_counter_no_underflow 1 ⟨1, 3, u64ToLeBytes 100⟩ ⟨2, 5, []⟩ 100
    rfl rfl (by decide) (by decide) (by decide)

/-- C7: instruction dispatch. Tag byte 0 followed by exactly an 8-byte
little-endian payload decodes to a deposit of that amount and dispatches to
the `deposit` handler; the single byte 1 decodes to a withdrawal and
dispatches to the `withdraw` handler; every other byte string is a borsh
decode error, no handler runs, and the entrypoint returns the error with no
account output. -/
theorem process_instruction_dispatch (pid rentMin : Nat)
    (accounts : List Account) (input : List Nat) :
    (∀ payload, input = 0 :: payload → payload.length = 8 →
       tryFromSlice input = .ok (.DepositInstruction (leBytesToU64 payload)) ∧
       ∀ payer depositAccount sys rest,
         accounts = payer :: depositAccount :: sys :: rest →
         process_instruction pid rentMin accounts input =
           (match deposit pid rentMin payer depositAccount
                    (leBytesToU64 payload) with
            | .ok (p, d) => .ok [p, d]
            | .error e => .error e)) ∧
    (input = [1] →
       tryFromSlice input = .ok .WithdrawalInstruction ∧
       ∀ depositAccount recipient rest,
         accounts = depositAccount :: recipient :: rest →
         process_instruction pid rentMin accounts input =
           (match withdraw pid depositAccount recipient with
            | .ok (d, r) => .ok [d, r]
            | .error e => .error e)) ∧
    (wellFormedInput input = false →
       tryFromSlice input = .error .BorshIoError ∧
       process_instruction pid rentMin accounts input = .error .BorshIoError) := by
  refine ⟨?_, ?_, ?_⟩
  · rintro payload rfl hlen
    have hdec : tryFromSlice (0 :: payload) =
        .ok (.DepositInstruction (leBytesToU64 payload)) := by
      rw [tryFromSlice]
      simp [hlen]
    refine ⟨hdec, ?_⟩
    rintro payer da sys rest rfl
    rw [process_instruction.eq_def, hdec]
  · rintro rfl
    refine ⟨rfl, ?_⟩
    rintro da r rest rfl
    rfl
  · intro hwf
    have herr : tryFromSlice input = .error .BorshIoError := by
      cases input with
      | nil => rfl
      | cons b rest =>
        match b with
        | 0 =>
          simp only [wellFormedInput, beq_eq_false_iff_ne, ne_eq] at hwf
          rw [tryFromSlice]
          simp [hwf]
        | 1 =>
          cases rest with
          | nil => simp [wellFormedInput] at hwf
          | cons r rs => rfl
        | (n + 2) => rfl
    exact ⟨herr, by rw [process_instruction.eq_def, herr]⟩

/-- C7 witness: `[0, 5, 0, 0, 0, 0, 0, 0, 0]` decodes to a deposit of 5,
`[1]` to a withdrawal, and the lone byte `[2]` is a decode error that makes
the entrypoint fail with no handler output. -/
theorem process_instruction_dispatch_witness :
    tryFromSlice [0, 5, 0, 0, 0, 0, 0, 0, 0] =
      .ok (.DepositInstruction 5) ∧
    tryFromSlice [1] = .ok .WithdrawalInstruction ∧
    tryFromSlice [2] = .error .BorshIoError ∧
    process_instruction 0 0 [] [2] = .error .BorshIoError := by
  refine ⟨?_, ?_, ?_, ?_⟩
  · exact ((process_instruction_dispatch 0 0 [] [0, 5, 0, 0, 0, 0, 0, 0, 0]).1
      [5, 0, 0, 0, 0, 0, 0, 0] rfl (by decide)).1
  · exact ((process_instruction_dispatch 0 0 [] [1]).2.1 rfl).1
  · exact ((process_instruction_dispatch 0 0 [] [2]).2.2 rfl).1
  · exact ((process_instruction_dispatch 0 0 [] [2]).2.2 rfl).2
